import Mathlib

/-!
Shallow embedding of the descriptor/aggregation core of fuzzy-rough-learn:
`frlearn/neighbours/owa_operators.py` and `frlearn/neighbours/descriptors.py`.

Numeric values are modelled exactly: finite values as rationals, together
with the IEEE special values (positive and negative infinity, NaN) that the
edge-case handling of LNND and LOF manipulates symbolically.
-/

/-- Extended numeric value: a finite rational, an infinity, or NaN.
Models the float values flowing through the descriptor pipelines. -/
inductive Fv where
  | fin (q : ℚ)
  | inf
  | ninf
  | nan
deriving DecidableEq, Repr

/-- IEEE addition on extended values: NaN propagates, `inf + ninf = nan`. -/
def Fv.add : Fv → Fv → Fv
  | Fv.nan, _ => Fv.nan
  | _, Fv.nan => Fv.nan
  | Fv.inf, Fv.ninf => Fv.nan
  | Fv.ninf, Fv.inf => Fv.nan
  | Fv.inf, _ => Fv.inf
  | _, Fv.inf => Fv.inf
  | Fv.ninf, _ => Fv.ninf
  | _, Fv.ninf => Fv.ninf
  | Fv.fin a, Fv.fin b => Fv.fin (a + b)

/-- IEEE division on extended values: NaN propagates, `x / 0` is a signed
infinity for `x ≠ 0` and NaN for `x = 0`, `inf / inf = nan`, `fin / inf = 0`. -/
def Fv.div : Fv → Fv → Fv
  | Fv.nan, _ => Fv.nan
  | _, Fv.nan => Fv.nan
  | Fv.fin a, Fv.fin b =>
      if b = 0 then (if a = 0 then Fv.nan else if 0 < a then Fv.inf else Fv.ninf)
      else Fv.fin (a / b)
  | Fv.fin _, Fv.inf => Fv.fin 0
  | Fv.fin _, Fv.ninf => Fv.fin 0
  | Fv.inf, Fv.fin b => if 0 ≤ b then Fv.inf else Fv.ninf
  | Fv.ninf, Fv.fin b => if 0 ≤ b then Fv.ninf else Fv.inf
  | Fv.inf, Fv.inf => Fv.nan
  | Fv.inf, Fv.ninf => Fv.nan
  | Fv.ninf, Fv.inf => Fv.nan
  | Fv.ninf, Fv.ninf => Fv.nan

/-- `np.maximum` on extended values: NaN propagates. -/
def Fv.max : Fv → Fv → Fv
  | Fv.nan, _ => Fv.nan
  | _, Fv.nan => Fv.nan
  | Fv.inf, _ => Fv.inf
  | _, Fv.inf => Fv.inf
  | Fv.ninf, y => y
  | x, Fv.ninf => x
  | Fv.fin a, Fv.fin b => Fv.fin (if a ≤ b then b else a)

/-- Sum of a list of extended values (`np.sum` semantics via `Fv.add`). -/
def sumFv (l : List Fv) : Fv := l.foldl Fv.add (Fv.fin 0)

/-- `np.mean` along the last axis: sum divided by the length.
The mean of an empty list is `0 / 0 = nan`, matching numpy. -/
def Fv.mean (l : List Fv) : Fv := Fv.div (sumFv l) (Fv.fin (l.length : ℚ))

/-- Largest double-precision float, `np.finfo(np.float64).max`, the value
`np.nan_to_num` substitutes for a positive infinity. -/
def DBL_MAX : ℚ := (2 ^ 53 - 1) * 2 ^ 971

/-- `np.nan_to_num(x, nan=np.nan)` as called at descriptors.py line 143:
keeps NaN, replaces the infinities by the largest finite doubles. -/
def nan_to_num : Fv → Fv
  | Fv.fin q => Fv.fin q
  | Fv.inf => Fv.fin DBL_MAX
  | Fv.ninf => Fv.fin (-DBL_MAX)
  | Fv.nan => Fv.nan

/-- Modelled from the spec: `frlearn.utils.np_utils.div_or` (imported by
descriptors.py, absent from src). Divides with the convention that the
degenerate `0/0` case is replaced by the fallback value, while any other
NaN is preserved to surface as a diagnostic signal. -/
def div_or (x y fallback : Fv) : Fv :=
  if x = Fv.fin 0 ∧ y = Fv.fin 0 then fallback else Fv.div x y

/-- Modelled from the spec: `frlearn.utils.np_utils.shifted_reciprocal`
(imported by descriptors.py, absent from src), the default proximity
transform `x ↦ 1 / (1 + x)`, here on extended values. -/
def shifted_reciprocal (x : Fv) : Fv :=
  Fv.div (Fv.fin 1) (Fv.add (Fv.fin 1) x)

/-- Modelled from the spec: the default proximity transform `x ↦ 1 / (1 + x)`
restricted to finite values, as used on the finite distances the NND
pipeline receives from the index. -/
def shifted_reciprocal_fin (x : ℚ) : ℚ := 1 / (1 + x)

/-- Ascending insertion sort of rationals (the sorting underlying the
`limit_and_sort` utility). -/
def sortAsc (v : List ℚ) : List ℚ := List.insertionSort (fun a b => a ≤ b) v

/-- Modelled from the spec: `frlearn.utils.limit_and_sort` (imported by
owa_operators.py, absent from src), the utility that sorts an array and
keeps `j` values: for `j ≥ 0` the `j` smallest values in ascending order,
for `j < 0` the `|j|` largest values in ascending order.  This is the
reading under which the source's `trimmed` operator selects exactly the
k-th ranked value, as the spec and the NND docstring in descriptors.py
("only the kth neighbour is used") require. -/
def limit_and_sort (v : List ℚ) (j : Int) : List ℚ :=
  if 0 ≤ j then (sortAsc v).take j.toNat
  else (sortAsc v).drop ((sortAsc v).length - (-j).toNat)

/-- The k-th largest value of a list (k counted from 1), read off the
ascending sort.  Spec-side definition used to state the `trimmed` claims. -/
def kthLargest (v : List ℚ) (k : Nat) : ℚ := (sortAsc v).getD (v.length - k) 0

/-- The k-th smallest value of a list (k counted from 1). -/
def kthSmallest (v : List ℚ) (k : Nat) : ℚ := (sortAsc v).getD (k - 1) 0

/-- Elementwise product followed by a sum, `np.sum(v * w, axis=-1)` for 1-D
rows. -/
def dot (a b : List ℚ) : ℚ := (List.zipWith (fun x y => x * y) a b).sum

/-- `OWAOperator` from owa_operators.py: a weight vector together with the
`max_like` polarity flag (`self.k` is `len(w)`, mirrored by `OWAOperator.k`). -/
structure OWAOperator where
  w : List ℚ
  max_like : Bool
deriving DecidableEq, Repr

/-- `self.k = len(w)` from `OWAOperator.__init__`. -/
def OWAOperator.k (op : OWAOperator) : Nat := op.w.length

/-- `OWAOperator._apply` (owa_operators.py lines 121-124):
`w = self.w if self.max_like and as_soft_max else np.flip(self.w)` and
`v = limit_and_sort(v, -self.k, -1) if as_soft_max else
np.flip(limit_and_sort(v, self.k, -1))`, then `np.sum(v * w, axis=-1)`. -/
def OWAOperator.applyW (op : OWAOperator) (v : List ℚ) (as_soft_max : Bool) : ℚ :=
  let w := if op.max_like && as_soft_max then op.w else op.w.reverse
  let v2 := if as_soft_max then limit_and_sort v (-(op.k : Int))
            else (limit_and_sort v (op.k : Int)).reverse
  dot v2 w

/-- `OWAOperator.soft_max` (owa_operators.py lines 126-140): takes the one
array argument `v`. -/
def OWAOperator.soft_max (op : OWAOperator) (v : List ℚ) : ℚ :=
  op.applyW v true

/-- `OWAOperator.soft_min` (owa_operators.py lines 142-156). -/
def OWAOperator.soft_min (op : OWAOperator) (v : List ℚ) : ℚ :=
  op.applyW v false

/-- Weight vector of the `strict` operator: `np.ones(1)`. -/
def strict_w : List ℚ := [1]

/-- `strict = OWAOperator(np.ones(1), max_like=True)` (owa_operators.py line 159). -/
def strict : OWAOperator := ⟨strict_w, true⟩

/-- Weight vector of the `additive` family:
`2 * np.arange(1, k + 1) / (k * (k + 1))`. -/
def additive_w (kk : Nat) : List ℚ :=
  (List.range kk).map fun (i : ℕ) => 2 * ((i : ℚ) + 1) / ((kk : ℚ) * ((kk : ℚ) + 1))

/-- The `additive` family (owa_operators.py lines 161-163), `max_like=False`. -/
def additive (kk : Nat) : OWAOperator := ⟨additive_w kk, false⟩

/-- Weight vector of the `exponential` family (owa_operators.py line 166):
`np.flip(2 ** np.arange(k) / (2 ** k - 1)) if k < 32 else
np.cumprod(np.full(k, 0.5))`. -/
def exponential_w (kk : Nat) : List ℚ :=
  if kk < 32 then ((List.range kk).map fun j => (2 : ℚ) ^ j / ((2 : ℚ) ^ kk - 1)).reverse
  else (List.range kk).map fun j => (1 / 2 : ℚ) ^ (j + 1)

/-- The `exponential` family (owa_operators.py lines 165-167), `max_like=True`. -/
def exponential (kk : Nat) : OWAOperator := ⟨exponential_w kk, true⟩

/-- The harmonic-like normaliser `np.sum(1 / np.arange(1, k + 1))` of the
`invadd` family. -/
def invadd_H (kk : Nat) : ℚ :=
  ((List.range kk).map fun (i : ℕ) => 1 / ((i : ℚ) + 1)).sum

/-- Weight vector of the `invadd` family:
`1 / (np.arange(1, k + 1) * np.sum(1 / np.arange(1, k + 1)))`. -/
def invadd_w (kk : Nat) : List ℚ :=
  (List.range kk).map fun (i : ℕ) => 1 / (((i : ℚ) + 1) * invadd_H kk)

/-- The `invadd` family (owa_operators.py lines 169-171), `max_like=True`. -/
def invadd (kk : Nat) : OWAOperator := ⟨invadd_w kk, true⟩

/-- Weight vector of the `mean` family: `np.full(k, 1 / k)`. -/
def mean_w (kk : Nat) : List ℚ := List.replicate kk (1 / (kk : ℚ))

/-- The `mean` family (owa_operators.py lines 173-175), `max_like=False`. -/
def mean_family (kk : Nat) : OWAOperator := ⟨mean_w kk, false⟩

/-- Weight vector of the `trimmed` family:
`np.append(np.zeros(k - 1), np.ones(1))`. -/
def trimmed_w (kk : Nat) : List ℚ := List.replicate (kk - 1) 0 ++ [1]

/-- The `trimmed` family (owa_operators.py lines 177-179), `max_like=False`. -/
def trimmed (kk : Nat) : OWAOperator := ⟨trimmed_w kk, false⟩

/-- One entry of a brute-force exact 1-D neighbour index: reference-point
position paired with its identifier. -/
def refEnum (ref : List ℚ) : List (Nat × ℚ) := ref.enum

/-- Computable absolute value on the rationals (kernel-reducible form of
`|x|`). -/
def absQ (x : ℚ) : ℚ := if x < 0 then -x else x

/-- Candidate (identifier, distance) pairs of a query point against a set of
reference entries, in reference order; the distance is the 1-D Euclidean
distance `|q - p|`. -/
def candDists (entries : List (Nat × ℚ)) (q : ℚ) : List (Nat × ℚ) :=
  entries.map fun p => (p.1, absQ (q - p.2))

/-- Candidates sorted ascending by distance, stably (ties keep reference
order). -/
def sortByDist (cands : List (Nat × ℚ)) : List (Nat × ℚ) :=
  List.insertionSort (fun a b => a.2 ≤ b.2) cands

/-- The k nearest entries of a query point: identifiers and distances,
ascending by distance. -/
def nearestK (entries : List (Nat × ℚ)) (q : ℚ) (k : Nat) : List Nat × List ℚ :=
  let s := (sortByDist (candDists entries q)).take k
  (s.map Prod.fst, s.map Prod.snd)

/-- Modelled from the spec: the external neighbour-index contract
`query(points, k) -> (neighbourIndices, distances)` (spec section 6), for an
exact brute-force 1-D index.  The index rejects a `k` that is not a positive
integer at most the reference-set size (spec section 4.2: the index, not the
core, rejects invalid `k`). -/
def Index.query (ref : List ℚ) (X : List ℚ) (k : Nat) :
    Option (List (List Nat) × List (List ℚ)) :=
  if 1 ≤ k ∧ k ≤ ref.length then
    some (X.map fun q => (nearestK (refEnum ref) q k).1,
          X.map fun q => (nearestK (refEnum ref) q k).2)
  else none

/-- Modelled from the spec: the external index operation
`query_self(k) -> (neighbourIndices, distances)` (spec section 6), querying
every reference point against the reference set excluding itself.  Rejects
`k` outside `1 .. len(ref) - 1` (each point has only `len(ref) - 1`
candidate neighbours). -/
def Index.query_self (ref : List ℚ) (k : Nat) :
    Option (List (List Nat) × List (List ℚ)) :=
  if 1 ≤ k ∧ k + 1 ≤ ref.length then
    some ((refEnum ref).map fun p =>
            (nearestK ((refEnum ref).filter fun e => e.1 ≠ p.1) p.2 k).1,
          (refEnum ref).map fun p =>
            (nearestK ((refEnum ref).filter fun e => e.1 ≠ p.1) p.2 k).2)
  else none

/-- Fitted state of `NND.Description` (descriptors.py lines 85-90) with the
default configuration `proximity = shifted_reciprocal`, `owa = trimmed()`:
the resolved `k` and the reference index. -/
structure NNDDescription where
  k : Nat
  points : List ℚ
deriving DecidableEq, Repr

/-- Modelled from the spec: `Descriptor.fit` for NND (the base class is
absent from src).  `NND.Description.__init__` resolves `k` and stores the
hyperparameters; it performs no validation and issues no index call, so
construction always succeeds. -/
def NND.fit (k : Nat) (ref : List ℚ) : Option NNDDescription :=
  some ⟨k, ref⟩

/-- Number of non-`self` parameters of `OWAOperator.soft_max` as defined in
owa_operators.py lines 126-140 (the single array `v`). -/
def OWAOperator.soft_max_arity : Nat := 1

/-- Number of arguments `NND.Description._query` (descriptors.py line 94)
passes to `self.owa.soft_max`: `(proximities, self.k)`. -/
def NND.soft_max_call_nargs : Nat := 2

/-- `NND.Description.query` composed with `_query` (descriptors.py lines
26-28 and 92-95) under the hypothesis that `self.owa` is an instance of the
`OWAOperator` class of owa_operators.py: the Python call
`self.owa.soft_max(proximities, self.k)` binds `NND.soft_max_call_nargs`
positional arguments to a method accepting `OWAOperator.soft_max_arity`,
and raises unless the two agree. -/
def NND.query_with_src_operator (op : OWAOperator) (d : NNDDescription)
    (X : List ℚ) : Option (List ℚ) :=
  if NND.soft_max_call_nargs = OWAOperator.soft_max_arity then
    (Index.query d.points X d.k).map fun nd =>
      nd.2.map fun row => op.soft_max (row.map shifted_reciprocal_fin)
  else none

/-- Modelled from the spec: the soft maximum of the default `trimmed` OWA
operator of `frlearn.utils.owa_operators` (the module descriptors.py
actually imports, absent from src), whose `soft_max(v, k)` takes the
neighbour count per call and selects exactly the k-th ranked (k-th largest)
value. -/
def utils_trimmed_soft_max (v : List ℚ) (k : Nat) : ℚ := kthLargest v k

/-- `NND.Description.query` then `_query` (descriptors.py lines 26-28 and
92-95) with the default configuration: distances from the index are mapped
through `shifted_reciprocal` and aggregated per row by the trimmed
`soft_max(proximities, self.k)` of the utils operator. -/
def NND.query (d : NNDDescription) (X : List ℚ) : Option (List ℚ) :=
  (Index.query d.points X d.k).map fun nd =>
    nd.2.map fun row => utils_trimmed_soft_max (row.map shifted_reciprocal_fin) d.k

/-- `fit` followed by `query`, the end-to-end NND pipeline. -/
def NND.pipeline (ref : List ℚ) (k : Nat) (X : List ℚ) : Option (List ℚ) :=
  (NND.fit k ref).bind fun d => NND.query d X

/-- Fitted state of `LNND.Description` (descriptors.py lines 132-137): the
resolved `k`, the reference index, and the per-reference-point k-th
self-distances `distances[:, k-1]`. -/
structure LNNDDescription where
  k : Nat
  points : List ℚ
  distances : List Fv
deriving DecidableEq, Repr

/-- Modelled from the spec: `Descriptor.fit` for LNND (base class absent
from src) composed with `LNND.Description.__init__`: one `query_self(k)`
call, keeping column `k-1` of the distances. -/
def LNND.fit (k : Nat) (ref : List ℚ) : Option LNNDDescription :=
  (Index.query_self ref k).map fun nd =>
    ⟨k, ref, nd.2.map fun row => Fv.fin (row.getD (k - 1) 0)⟩

/-- `LNND.Description._query` (descriptors.py lines 139-144) for one query
point: `l = div_or(q_distances[:, k-1], self.distances[q_neighbours[:, k-1]], 1)`,
then `np.nan_to_num(l, nan=np.nan)`, then `shifted_reciprocal`.  Out-of-range
indexing raises in Python and is `none` here. -/
def LNND.queryRow (d : LNNDDescription) (nbrs : List Nat) (dists : List Fv) :
    Option Fv := do
  let x ← dists.get? (d.k - 1)
  let r ← nbrs.get? (d.k - 1)
  let sd ← d.distances.get? r
  let l := div_or x sd (Fv.fin 1)
  let l2 := nan_to_num l
  pure (shifted_reciprocal l2)

/-- `LNND.Description.query` (descriptors.py lines 26-28 and 139-144): one
index query, then the per-row aggregation. -/
def LNND.query (d : LNNDDescription) (X : List ℚ) : Option (List Fv) := do
  let nd ← Index.query d.points X d.k
  (List.zip nd.1 (nd.2.map (List.map Fv.fin))).mapM fun p =>
    LNND.queryRow d p.1 p.2

/-- `fit` followed by `query`, the end-to-end LNND pipeline. -/
def LNND.pipeline (ref : List ℚ) (k : Nat) (X : List ℚ) : Option (List Fv) :=
  (LNND.fit k ref).bind fun d => LNND.query d X

/-- Fitted state of `LOF.Description` (descriptors.py lines 176-182): the
resolved `k`, the reference index, the k-th self-distances, and the local
reachability density of every reference point. -/
structure LOFDescription where
  k : Nat
  points : List ℚ
  distances : List Fv
  lrd : List Fv
deriving DecidableEq, Repr

/-- `LOF.Description._get_lrd` (descriptors.py lines 184-186) for one row:
`r_distances = np.maximum(q_distances, self.distances[q_neighbours])`, then
`1 / np.mean(r_distances, axis=-1)`.  The fancy indexing
`self.distances[q_neighbours]` raises on an out-of-range identifier and is
`none` here. -/
def LOF.get_lrd (selfd : List Fv) (nbrs : List Nat) (dists : List Fv) :
    Option Fv := do
  let sd ← nbrs.mapM fun j => selfd.get? j
  let r := List.zipWith Fv.max dists sd
  pure (Fv.div (Fv.fin 1) (Fv.mean r))

/-- Modelled from the spec: `Descriptor.fit` for LOF (base class absent from
src) composed with `LOF.Description.__init__` (descriptors.py lines
178-182): one `query_self(k)` call, column `k-1` of the distances, and the
reference LRD array. -/
def LOF.fit (k : Nat) (ref : List ℚ) : Option LOFDescription := do
  let nd ← Index.query_self ref k
  let selfd := nd.2.map fun row => Fv.fin (row.getD (k - 1) 0)
  let lrd ← (List.zip nd.1 (nd.2.map (List.map Fv.fin))).mapM fun p =>
    LOF.get_lrd selfd p.1 p.2
  pure ⟨k, ref, selfd, lrd⟩

/-- `LOF.Description._query` (descriptors.py lines 188-193) for one query
point: the query LRD, the ratio `lof = mean(self.lrd[q_neighbours]) / q_lrd`,
the masking `lof[np.isnan(lof)] = 1` applied to every NaN entry, and the
final `shifted_reciprocal`. -/
def LOF.queryRow (d : LOFDescription) (nbrs : List Nat) (dists : List Fv) :
    Option Fv := do
  let qlrd ← LOF.get_lrd d.distances nbrs dists
  let nlrd ← nbrs.mapM fun j => d.lrd.get? j
  let lof := Fv.div (Fv.mean nlrd) qlrd
  let lof2 := if lof = Fv.nan then Fv.fin 1 else lof
  pure (shifted_reciprocal lof2)

/-- `LOF.Description.query` (descriptors.py lines 26-28 and 188-193). -/
def LOF.query (d : LOFDescription) (X : List ℚ) : Option (List Fv) := do
  let nd ← Index.query d.points X d.k
  (List.zip nd.1 (nd.2.map (List.map Fv.fin))).mapM fun p =>
    LOF.queryRow d p.1 p.2

/-- `fit` followed by `query`, the end-to-end LOF pipeline. -/
def LOF.pipeline (ref : List ℚ) (k : Nat) (X : List ℚ) : Option (List Fv) :=
  (LOF.fit k ref).bind fun d => LOF.query d X

/-- State-passing form of `NND.Description.query`: the method reads the
fitted fields and assigns no attribute, so it returns the description it
was given. -/
def NND.queryS (d : NNDDescription) (X : List ℚ) :
    Option (List ℚ) × NNDDescription := (NND.query d X, d)

/-- State-passing form of `LNND.Description.query`. -/
def LNND.queryS (d : LNNDDescription) (X : List ℚ) :
    Option (List Fv) × LNNDDescription := (LNND.query d X, d)

/-- State-passing form of `LOF.Description.query`: the NaN masking writes a
fresh local array (`lof`), never the fitted `lrd` or `distances` arrays. -/
def LOF.queryS (d : LOFDescription) (X : List ℚ) :
    Option (List Fv) × LOFDescription := (LOF.query d X, d)

theorem absQ_eq_abs (x : ℚ) : absQ x = |x| := by
  unfold absQ
  rcases lt_or_ge x 0 with h | h
  · rw [if_pos h, abs_of_neg h]
  · rw [if_neg (not_lt.mpr h), abs_of_nonneg h]

theorem Fv.nan_add (x : Fv) : Fv.add Fv.nan x = Fv.nan := by
  cases x <;> rfl

theorem Fv.add_nan (x : Fv) : Fv.add x Fv.nan = Fv.nan := by
  cases x <;> rfl

theorem Fv.nan_div (x : Fv) : Fv.div Fv.nan x = Fv.nan := by
  cases x <;> rfl

theorem Fv.div_nan (x : Fv) : Fv.div x Fv.nan = Fv.nan := by
  cases x <;> rfl

theorem Fv.nan_max (x : Fv) : Fv.max Fv.nan x = Fv.nan := by
  cases x <;> rfl

theorem foldl_add_nan (l : List Fv) :
    ∀ acc : Fv, acc = Fv.nan ∨ Fv.nan ∈ l → l.foldl Fv.add acc = Fv.nan := by
  induction l with
  | nil =>
      intro acc h
      rcases h with h | h
      · simpa using h
      · simp at h
  | cons x xs ih =>
      intro acc h
      rcases h with h | h
      · subst h
        exact ih _ (Or.inl (Fv.nan_add x))
      · rcases List.mem_cons.mp h with h | h
        · subst h
          exact ih _ (Or.inl (Fv.add_nan acc))
        · exact ih _ (Or.inr h)

theorem sumFv_of_nan_mem {l : List Fv} (h : Fv.nan ∈ l) : sumFv l = Fv.nan :=
  foldl_add_nan l _ (Or.inr h)

theorem mean_of_nan_mem {l : List Fv} (h : Fv.nan ∈ l) : Fv.mean l = Fv.nan := by
  unfold Fv.mean
  rw [sumFv_of_nan_mem h, Fv.nan_div]

theorem nan_mem_zipWith_max {xs ys : List Fv} (h : Fv.nan ∈ xs)
    (hl : xs.length ≤ ys.length) : Fv.nan ∈ List.zipWith Fv.max xs ys := by
  induction xs generalizing ys with
  | nil => simp at h
  | cons x xs ih =>
      cases ys with
      | nil => simp at hl
      | cons y ys =>
          rcases List.mem_cons.mp h with h | h
          · subst h
            exact List.mem_cons.mpr (Or.inl (Fv.nan_max y).symm)
          · exact List.mem_cons.mpr (Or.inr (ih h (Nat.succ_le_succ_iff.mp hl)))

theorem dot_replicate_zero (xs : List ℚ) (m : Nat) :
    dot xs (List.replicate m 0) = 0 := by
  induction xs generalizing m with
  | nil => simp [dot]
  | cons x xs ih =>
      cases m with
      | zero => simp [dot]
      | succ m =>
          simp only [List.replicate_succ, dot, List.zipWith_cons_cons, List.sum_cons]
          rw [mul_zero, zero_add]
          exact ih m

theorem dot_one_replicate_zero (l : List ℚ) (m : Nat) (h : l ≠ []) :
    dot l (1 :: List.replicate m 0) = l.headD 0 := by
  cases l with
  | nil => exact absurd rfl h
  | cons x xs =>
      simp only [dot, List.zipWith_cons_cons, List.sum_cons, List.headD_cons]
      rw [mul_one]
      have := dot_replicate_zero xs m
      unfold dot at this
      rw [this, add_zero]

theorem dot_reverse (a b : List ℚ) (h : a.length = b.length) :
    dot a.reverse b.reverse = dot a b := by
  induction a generalizing b with
  | nil =>
      have : b = [] := List.length_eq_zero.mp h.symm
      subst this; rfl
  | cons x xs ih =>
      cases b with
      | nil => simp at h
      | cons y ys =>
          have hl : xs.length = ys.length := by simpa using h
          simp only [List.reverse_cons, dot]
          rw [List.zipWith_append _ _ _ _ _ (by simp [hl])]
          simp only [List.sum_append, List.zipWith_cons_cons, List.zipWith_nil_right,
            List.sum_cons, List.sum_nil]
          have := ih ys hl
          unfold dot at this
          rw [this]
          ring

theorem length_sortAsc (v : List ℚ) : (sortAsc v).length = v.length :=
  List.length_insertionSort _ v

theorem trimmed_w_reverse (kk : Nat) :
    (trimmed_w kk).reverse = 1 :: List.replicate (kk - 1) 0 := by
  simp [trimmed_w, List.reverse_append, List.reverse_replicate]

theorem trimmed_k (kk : Nat) (hk : 1 ≤ kk) : (trimmed kk).k = kk := by
  simp only [OWAOperator.k, trimmed, trimmed_w, List.length_append,
    List.length_replicate, List.length_cons, List.length_nil]
  omega

theorem sum_map_range_succ (f : ℕ → ℚ) (n : ℕ) :
    ((List.range (n + 1)).map f).sum = ((List.range n).map f).sum + f n := by
  rw [List.range_succ, List.map_append, List.sum_append]
  simp

theorem additive_sum_aux (D : ℚ) (n : ℕ) :
    ((List.range n).map fun (i : ℕ) => 2 * ((i : ℚ) + 1) / D).sum
      = (n : ℚ) * ((n : ℚ) + 1) / D := by
  induction n with
  | zero => simp
  | succ n ih =>
      rw [sum_map_range_succ, ih]
      push_cast
      ring

theorem pow2_sum_aux (D : ℚ) (n : ℕ) :
    ((List.range n).map fun j => (2 : ℚ) ^ j / D).sum = ((2 : ℚ) ^ n - 1) / D := by
  induction n with
  | zero => simp
  | succ n ih =>
      rw [sum_map_range_succ, ih, pow_succ]
      ring

theorem geo_sum_aux (n : ℕ) :
    ((List.range n).map fun j => (1 / 2 : ℚ) ^ (j + 1)).sum = 1 - (1 / 2 : ℚ) ^ n := by
  induction n with
  | zero => simp
  | succ n ih =>
      rw [sum_map_range_succ, ih]
      ring

theorem invadd_sum_aux (c : ℚ) (n : ℕ) :
    ((List.range n).map fun (i : ℕ) => 1 / (((i : ℚ) + 1) * c)).sum
      = ((List.range n).map fun (i : ℕ) => 1 / ((i : ℚ) + 1)).sum / c := by
  induction n with
  | zero => simp
  | succ n ih =>
      rw [sum_map_range_succ, sum_map_range_succ, ih, add_div]
      rw [div_div]

theorem invadd_H_nonneg (n : ℕ) : 0 ≤ invadd_H n := by
  induction n with
  | zero => simp [invadd_H]
  | succ n ih =>
      unfold invadd_H
      rw [sum_map_range_succ]
      have h2 : 0 ≤ 1 / ((n : ℚ) + 1) := by positivity
      unfold invadd_H at ih
      linarith

theorem invadd_H_pos (n : ℕ) (hn : 1 ≤ n) : 0 < invadd_H n := by
  cases n with
  | zero => omega
  | succ m =>
      unfold invadd_H
      rw [sum_map_range_succ]
      have h1 := invadd_H_nonneg m
      unfold invadd_H at h1
      have h2 : 0 < 1 / ((m : ℚ) + 1) := by positivity
      linarith

theorem additive_w_sum (kk : Nat) (hk : 1 ≤ kk) : (additive_w kk).sum = 1 := by
  unfold additive_w
  rw [additive_sum_aux]
  have hkq : 0 < (kk : ℚ) := by exact_mod_cast hk
  apply div_self
  have : 0 < (kk : ℚ) * ((kk : ℚ) + 1) := by positivity
  exact ne_of_gt this

theorem two_pow_sub_one_pos (kk : Nat) (hk : 1 ≤ kk) : 0 < (2 : ℚ) ^ kk - 1 := by
  have h1 : (1 : ℚ) < 2 ^ kk := one_lt_pow₀ (by norm_num) (by omega)
  linarith

theorem exponential_w_sum_lt (kk : Nat) (hk : 1 ≤ kk) (h32 : kk < 32) :
    (exponential_w kk).sum = 1 := by
  unfold exponential_w
  rw [if_pos h32, List.sum_reverse, pow2_sum_aux]
  exact div_self (ne_of_gt (two_pow_sub_one_pos kk hk))

theorem exponential_w_sum_ge (kk : Nat) (h32 : ¬ kk < 32) :
    (exponential_w kk).sum = 1 - (1 / 2 : ℚ) ^ kk := by
  unfold exponential_w
  rw [if_neg h32, geo_sum_aux]

theorem invadd_w_sum (kk : Nat) (hk : 1 ≤ kk) : (invadd_w kk).sum = 1 := by
  unfold invadd_w
  rw [invadd_sum_aux]
  exact div_self (ne_of_gt (invadd_H_pos kk hk))

theorem mean_w_sum (kk : Nat) (hk : 1 ≤ kk) : (mean_w kk).sum = 1 := by
  unfold mean_w
  rw [List.sum_replicate, nsmul_eq_mul, mul_one_div]
  apply div_self
  have hkq : 0 < (kk : ℚ) := by exact_mod_cast hk
  exact ne_of_gt hkq

theorem trimmed_w_sum (kk : Nat) : (trimmed_w kk).sum = 1 := by
  simp [trimmed_w, List.sum_replicate]

theorem strict_w_props : strict_w.length = 1 ∧ strict_w.sum = 1 ∧ ∀ x ∈ strict_w, 0 ≤ x := by
  refine ⟨rfl, by simp [strict_w], ?_⟩
  intro x hx
  simp [strict_w] at hx
  simp [hx]

theorem additive_w_nonneg (kk : Nat) : ∀ x ∈ additive_w kk, 0 ≤ x := by
  intro x hx
  rw [additive_w, List.mem_map] at hx
  obtain ⟨i, _, rfl⟩ := hx
  positivity

theorem additive_w_length (kk : Nat) : (additive_w kk).length = kk := by
  simp [additive_w]

theorem exponential_w_nonneg (kk : Nat) (hk : 1 ≤ kk) : ∀ x ∈ exponential_w kk, 0 ≤ x := by
  intro x hx
  unfold exponential_w at hx
  by_cases h32 : kk < 32
  · rw [if_pos h32, List.mem_reverse, List.mem_map] at hx
    obtain ⟨j, _, rfl⟩ := hx
    have hd := two_pow_sub_one_pos kk hk
    have hn : (0 : ℚ) ≤ 2 ^ j := by positivity
    exact div_nonneg hn (le_of_lt hd)
  · rw [if_neg h32, List.mem_map] at hx
    obtain ⟨j, _, rfl⟩ := hx
    positivity

theorem exponential_w_length (kk : Nat) : (exponential_w kk).length = kk := by
  unfold exponential_w
  by_cases h32 : kk < 32
  · rw [if_pos h32]
    simp
  · rw [if_neg h32]
    simp

theorem invadd_w_nonneg (kk : Nat) : ∀ x ∈ invadd_w kk, 0 ≤ x := by
  intro x hx
  rw [invadd_w, List.mem_map] at hx
  obtain ⟨i, _, rfl⟩ := hx
  have h1 : (0 : ℚ) ≤ (i : ℚ) + 1 := by positivity
  have h2 := invadd_H_nonneg kk
  exact div_nonneg zero_le_one (mul_nonneg h1 h2)

theorem invadd_w_length (kk : Nat) : (invadd_w kk).length = kk := by
  simp [invadd_w]

theorem mean_w_nonneg (kk : Nat) : ∀ x ∈ mean_w kk, 0 ≤ x := by
  intro x hx
  rw [mean_w, List.mem_replicate] at hx
  rw [hx.2]
  positivity

theorem mean_w_length (kk : Nat) : (mean_w kk).length = kk := by
  simp [mean_w]

theorem trimmed_w_nonneg (kk : Nat) : ∀ x ∈ trimmed_w kk, 0 ≤ x := by
  intro x hx
  rw [trimmed_w, List.mem_append] at hx
  rcases hx with hx | hx
  · rw [List.mem_replicate] at hx
    rw [hx.2]
  · simp at hx
    rw [hx]
    norm_num

theorem trimmed_w_length (kk : Nat) (hk : 1 ≤ kk) : (trimmed_w kk).length = kk := by
  simp [trimmed_w]
  omega

/-- Claim C1: for the reference set of 4 collinear 1-D points at positions
0, 1, 2, 3, with k = 1, the trimmed OWA operator and the default proximity
transform 1/(1+x), fitting NND and querying the points 0 and 10 returns
exactly the scores [1, 1/8]: the first query point coincides with a
reference point at distance 0, and the second's nearest reference point is
3, at distance 7. -/
theorem claim_nnd_end_to_end_collinear :
    NND.pipeline [0, 1, 2, 3] 1 [0, 10] = some [1, 1 / 8] := by
  with_unfolding_all decide

/-- Claim C9: querying a fitted description is idempotent and mutates no
fitted state: the state-passing form of each descriptor's query returns
the description unchanged, and a second query of the same input yields
the identical result. -/
theorem claim_query_idempotent :
    ∀ (d1 : NNDDescription) (d2 : LNNDDescription) (d3 : LOFDescription)
      (X : List ℚ),
      (NND.queryS d1 X).2 = d1 ∧
      NND.queryS (NND.queryS d1 X).2 X = NND.queryS d1 X ∧
      (LNND.queryS d2 X).2 = d2 ∧
      LNND.queryS (LNND.queryS d2 X).2 X = LNND.queryS d2 X ∧
      (LOF.queryS d3 X).2 = d3 ∧
      LOF.queryS (LOF.queryS d3 X).2 X = LOF.queryS d3 X :=
  fun _ _ _ _ => ⟨rfl, rfl, rfl, rfl, rfl, rfl⟩

/-- Claim C10: when the `owa` operator is an instance of the `OWAOperator`
class of owa_operators.py, `NND.Description._query` calls `soft_max` with
two arguments (`proximities` and `self.k`) while that method accepts one,
so the query fails for every operator, description and input. -/
theorem claim_nnd_src_operator_query_fails :
    ∀ (op : OWAOperator) (d : NNDDescription) (X : List ℚ),
      NND.query_with_src_operator op d X = none := by
  intro op d X
  simp [NND.query_with_src_operator, NND.soft_max_call_nargs,
    OWAOperator.soft_max_arity]

/-- Claim C6, counterexample: with k = 0 (non-positive) and with k = 5
(exceeding the reference-set size 4), NND's fit succeeds and returns a
description, so the error is not surfaced at fit time for every
descriptor as the claim states. -/
theorem claim_fit_validation_cex :
    (NND.fit 0 [(0 : ℚ), 1, 2, 3]).isSome = true ∧
    (NND.fit 5 [(0 : ℚ), 1, 2, 3]).isSome = true := by decide

/-- Claim C6, amended: the core never validates or clamps `k` itself (NND's
fit always succeeds and stores `k` unchanged); an invalid `k` (zero or
exceeding the reference-set size) is rejected by the index, which LNND and
LOF invoke at fit time through `query_self`, while for NND the failure only
surfaces at the first query. -/
theorem claim_fit_validation_amended (k : Nat) (ref X : List ℚ) :
    NND.fit k ref = some ⟨k, ref⟩ ∧
    ((k = 0 ∨ ref.length < k) →
      ((NND.fit k ref).bind fun d => NND.query d X) = none ∧
      LNND.fit k ref = none ∧ LOF.fit k ref = none) := by
  refine ⟨rfl, ?_⟩
  intro h
  have hq : ¬ (1 ≤ k ∧ k ≤ ref.length) := by omega
  have hqs : ¬ (1 ≤ k ∧ k + 1 ≤ ref.length) := by omega
  refine ⟨?_, ?_, ?_⟩
  · simp [NND.fit, NND.query, Index.query, hq]
  · simp [LNND.fit, Index.query_self, hqs]
  · simp [LOF.fit, Index.query_self, hqs]

/-- Claim C6, witness for the amended theorem at k = 0 over a 4-point
reference set. -/
theorem claim_fit_validation_amended_witness :
    NND.fit 0 [(0 : ℚ), 1, 2, 3] = some ⟨0, [(0 : ℚ), 1, 2, 3]⟩ ∧
    LNND.fit 0 [(0 : ℚ), 1, 2, 3] = none :=
  ⟨(claim_fit_validation_amended 0 [(0 : ℚ), 1, 2, 3] []).1,
   ((claim_fit_validation_amended 0 [(0 : ℚ), 1, 2, 3] []).2 (Or.inl rfl)).2.1⟩

/-- Claim C8, counterexample: the exponential family's geometric-sequence
fallback at k = 32 produces weights summing to 1 - (1/2)^32, not exactly 1. -/
theorem claim_owa_simplex_cex :
    (exponential_w 32).sum = 1 - (1 / 2 : ℚ) ^ 32 ∧ (exponential_w 32).sum ≠ 1 := by
  have h := exponential_w_sum_ge 32 (by norm_num)
  refine ⟨h, ?_⟩
  rw [h]
  norm_num

/-- Claim C8, amended: for every k ≥ 1 each predefined family produces a
weight vector of length k with non-negative entries; the strict, additive,
invadd, mean and trimmed families and the exponential family for k < 32 sum
exactly to 1, while the exponential geometric-sequence fallback for k ≥ 32
sums to 1 - (1/2)^k. -/
theorem claim_owa_simplex_amended (k : Nat) (hk : 1 ≤ k) :
    (strict_w.length = 1 ∧ strict_w.sum = 1 ∧ ∀ x ∈ strict_w, 0 ≤ x) ∧
    ((additive_w k).length = k ∧ (additive_w k).sum = 1 ∧ ∀ x ∈ additive_w k, 0 ≤ x) ∧
    ((invadd_w k).length = k ∧ (invadd_w k).sum = 1 ∧ ∀ x ∈ invadd_w k, 0 ≤ x) ∧
    ((mean_w k).length = k ∧ (mean_w k).sum = 1 ∧ ∀ x ∈ mean_w k, 0 ≤ x) ∧
    ((trimmed_w k).length = k ∧ (trimmed_w k).sum = 1 ∧ ∀ x ∈ trimmed_w k, 0 ≤ x) ∧
    ((exponential_w k).length = k ∧ (∀ x ∈ exponential_w k, 0 ≤ x) ∧
      (exponential_w k).sum = if k < 32 then 1 else 1 - (1 / 2 : ℚ) ^ k) := by
  refine ⟨strict_w_props, ⟨additive_w_length k, additive_w_sum k hk, additive_w_nonneg k⟩,
    ⟨invadd_w_length k, invadd_w_sum k hk, invadd_w_nonneg k⟩,
    ⟨mean_w_length k, mean_w_sum k hk, mean_w_nonneg k⟩,
    ⟨trimmed_w_length k hk, trimmed_w_sum k, trimmed_w_nonneg k⟩,
    ⟨exponential_w_length k, exponential_w_nonneg k hk, ?_⟩⟩
  by_cases h32 : k < 32
  · rw [if_pos h32]
    exact exponential_w_sum_lt k hk h32
  · rw [if_neg h32]
    exact exponential_w_sum_ge k h32

/-- Claim C8, witness for the amended theorem at k = 2. -/
theorem claim_owa_simplex_amended_witness :
    (strict_w.length = 1 ∧ strict_w.sum = 1 ∧ ∀ x ∈ strict_w, 0 ≤ x) ∧
    ((additive_w 2).length = 2 ∧ (additive_w 2).sum = 1 ∧ ∀ x ∈ additive_w 2, 0 ≤ x) ∧
    ((invadd_w 2).length = 2 ∧ (invadd_w 2).sum = 1 ∧ ∀ x ∈ invadd_w 2, 0 ≤ x) ∧
    ((mean_w 2).length = 2 ∧ (mean_w 2).sum = 1 ∧ ∀ x ∈ mean_w 2, 0 ≤ x) ∧
    ((trimmed_w 2).length = 2 ∧ (trimmed_w 2).sum = 1 ∧ ∀ x ∈ trimmed_w 2, 0 ≤ x) ∧
    ((exponential_w 2).length = 2 ∧ (∀ x ∈ exponential_w 2, 0 ≤ x) ∧
      (exponential_w 2).sum = if 2 < 32 then 1 else 1 - (1 / 2 : ℚ) ^ 2) :=
  claim_owa_simplex_amended 2 (by norm_num)

/-- Claim C3, counterexample: for a query point whose k-th neighbour
distance is 0 and whose k-th nearest reference point's self-distance is
also 0, the LNND score is not 1: the localised ratio defaults to 1 and the
proximity transform maps it to 1/2. -/
theorem claim_lnnd_zero_zero_cex :
    LNND.pipeline [0, 0] 1 [0] = some [Fv.fin (1 / 2)] ∧
    Fv.fin (1 / 2) ≠ Fv.fin 1 := by
  with_unfolding_all decide

/-- Claim C3, amended: when both the k-th neighbour distance and the
neighbour's self-distance are 0, the localised ratio is 1 by the `0/0 = 1`
convention and the returned LNND score is `shifted_reciprocal 1 = 1/2`,
not 1. -/
theorem claim_lnnd_zero_zero_amended (d : LNNDDescription) (nbrs : List Nat)
    (dists : List Fv) (r : Nat)
    (h1 : dists.get? (d.k - 1) = some (Fv.fin 0))
    (h2 : nbrs.get? (d.k - 1) = some r)
    (h3 : d.distances.get? r = some (Fv.fin 0)) :
    LNND.queryRow d nbrs dists = some (Fv.fin (1 / 2)) := by
  simp only [LNND.queryRow, h1, h2, h3, Option.bind_eq_bind, Option.some_bind]
  with_unfolding_all decide

/-- Claim C3, witness for the amended theorem: a 2-point reference set of
coincident points, queried at the same position. -/
theorem claim_lnnd_zero_zero_amended_witness :
    LNND.queryRow ⟨1, [0, 0], [Fv.fin 0, Fv.fin 0]⟩ [0] [Fv.fin 0]
      = some (Fv.fin (1 / 2)) :=
  claim_lnnd_zero_zero_amended ⟨1, [0, 0], [Fv.fin 0, Fv.fin 0]⟩ [0] [Fv.fin 0] 0
    (by decide) (by decide) (by decide)

theorem DBL_MAX_pos : (0 : ℚ) < DBL_MAX := by
  unfold DBL_MAX
  norm_num

theorem lnnd_row_pos_over_zero (d : LNNDDescription) (nbrs : List Nat)
    (dists : List Fv) (r : Nat) (a : ℚ)
    (h1 : dists.get? (d.k - 1) = some (Fv.fin a)) (ha : 0 < a)
    (h2 : nbrs.get? (d.k - 1) = some r)
    (h3 : d.distances.get? r = some (Fv.fin 0)) :
    LNND.queryRow d nbrs dists = some (Fv.fin (1 / (1 + DBL_MAX))) := by
  simp only [LNND.queryRow, h1, h2, h3, Option.bind_eq_bind, Option.some_bind]
  have hne : ¬ (Fv.fin a = Fv.fin 0 ∧ Fv.fin 0 = Fv.fin 0) := by
    simp [ha.ne']
  rw [div_or, if_neg hne]
  have hdiv : Fv.div (Fv.fin a) (Fv.fin 0) = Fv.inf := by
    simp [Fv.div, ha.ne', ha]
  rw [hdiv]
  have hMne : (1 : ℚ) + DBL_MAX ≠ 0 := by linarith [DBL_MAX_pos]
  simp [nan_to_num, shifted_reciprocal, Fv.add, Fv.div, hMne]

/-- Claim C4, counterexample: with a positive k-th neighbour distance over
a zero self-distance, the infinite ratio is not preserved: `nan_to_num`
replaces it by the largest finite double before the proximity transform,
so the score is `1 / (1 + DBL_MAX)`, a tiny positive value, not 0. -/
theorem claim_lnnd_infinity_cex :
    LNND.pipeline [0, 0] 1 [7] = some [Fv.fin (1 / (1 + DBL_MAX))] ∧
    Fv.fin (1 / (1 + DBL_MAX)) ≠ Fv.fin 0 := by
  constructor
  · have hfit : LNND.fit 1 [0, 0] = some ⟨1, [0, 0], [Fv.fin 0, Fv.fin 0]⟩ := by
      with_unfolding_all decide
    have hq : Index.query [0, 0] [7] 1 = some ([[0]], [[7]]) := by
      with_unfolding_all decide
    have hrow : LNND.queryRow ⟨1, [0, 0], [Fv.fin 0, Fv.fin 0]⟩ [0] [Fv.fin 7]
        = some (Fv.fin (1 / (1 + DBL_MAX))) :=
      lnnd_row_pos_over_zero ⟨1, [0, 0], [Fv.fin 0, Fv.fin 0]⟩ [0] [Fv.fin 7] 0 7
        (by decide) (by with_unfolding_all decide) (by decide) (by decide)
    simp only [LNND.pipeline, hfit, Option.some_bind, LNND.query, hq,
      Option.bind_eq_bind, List.map_cons, List.map_nil, List.zip_cons_cons,
      List.zip_nil_right, List.mapM_cons, List.mapM_nil, hrow, Option.some_bind,
      Option.pure_def]
  · have hMne : (1 : ℚ) + DBL_MAX ≠ 0 := by linarith [DBL_MAX_pos]
    simp only [ne_eq, Fv.fin.injEq]
    exact one_div_ne_zero hMne

/-- Claim C4, amended: for a query point with a positive k-th neighbour
distance and a zero self-distance at its k-th neighbour, the localised
ratio is +infinity but `np.nan_to_num` at descriptors.py line 143 replaces
it by the largest finite double, so the proximity transform is applied to
`DBL_MAX` and the score is `1 / (1 + DBL_MAX)` rather than 0. -/
theorem claim_lnnd_infinity_amended (d : LNNDDescription) (nbrs : List Nat)
    (dists : List Fv) (r : Nat) (a : ℚ)
    (h1 : dists.get? (d.k - 1) = some (Fv.fin a)) (ha : 0 < a)
    (h2 : nbrs.get? (d.k - 1) = some r)
    (h3 : d.distances.get? r = some (Fv.fin 0)) :
    LNND.queryRow d nbrs dists = some (Fv.fin (1 / (1 + DBL_MAX))) :=
  lnnd_row_pos_over_zero d nbrs dists r a h1 ha h2 h3

/-- Claim C4, witness for the amended theorem: distance 7 over
self-distance 0. -/
theorem claim_lnnd_infinity_amended_witness :
    LNND.queryRow ⟨1, [0, 0], [Fv.fin 0, Fv.fin 0]⟩ [0] [Fv.fin 7]
      = some (Fv.fin (1 / (1 + DBL_MAX))) :=
  claim_lnnd_infinity_amended ⟨1, [0, 0], [Fv.fin 0, Fv.fin 0]⟩ [0] [Fv.fin 7] 0 7
    (by decide) (by with_unfolding_all decide) (by decide) (by decide)

/-- Claim C5, counterexample: a NaN distance fed to a fitted LOF
description is not preserved: the blanket masking
`lof[np.isnan(lof)] = 1` at descriptors.py line 192 replaces it by 1, and
the returned score is 1/2 rather than NaN. -/
theorem claim_nan_preservation_cex :
    ((LOF.fit 1 [(0 : ℚ), 1]).bind fun d => LOF.queryRow d [0] [Fv.nan])
      = some (Fv.fin (1 / 2)) ∧ Fv.fin (1 / 2) ≠ Fv.nan := by
  with_unfolding_all decide

/-- Claim C5, amended: LNND preserves any NaN that is not the `0/0` case
(a NaN k-th neighbour distance yields a NaN score), but LOF does not: its
query masks every NaN in the LOF ratio, whatever its origin, to 1, so a
NaN arising from a non-finite distance produces the score 1/2 instead of
being surfaced. -/
theorem claim_nan_preservation_amended
    (dl : LNNDDescription) (nl : List Nat) (vl : List Fv) (r : Nat) (sd : Fv)
    (h1 : vl.get? (dl.k - 1) = some Fv.nan)
    (h2 : nl.get? (dl.k - 1) = some r)
    (h3 : dl.distances.get? r = some sd)
    (df : LOFDescription) (nf : List Nat) (vf : List Fv) (sds nlrd : List Fv)
    (g1 : nf.mapM (fun j => df.distances.get? j) = some sds)
    (g2 : nf.mapM (fun j => df.lrd.get? j) = some nlrd)
    (g3 : Fv.nan ∈ vf) (g4 : vf.length ≤ sds.length) :
    LNND.queryRow dl nl vl = some Fv.nan ∧
    LOF.queryRow df nf vf = some (Fv.fin (1 / 2)) := by
  constructor
  · simp only [LNND.queryRow, h1, h2, h3, Option.bind_eq_bind, Option.some_bind]
    have hne : ¬ (Fv.nan = Fv.fin 0 ∧ sd = Fv.fin 0) := by simp
    rw [div_or, if_neg hne, Fv.nan_div]
    rfl
  · have hmem : Fv.nan ∈ List.zipWith Fv.max vf sds := nan_mem_zipWith_max g3 g4
    have hmean : Fv.mean (List.zipWith Fv.max vf sds) = Fv.nan := mean_of_nan_mem hmem
    simp only [LOF.queryRow, LOF.get_lrd, g1, g2, Option.bind_eq_bind,
      Option.some_bind, Option.pure_def]
    rw [hmean]
    simp only [Fv.div_nan, if_pos]
    norm_num [shifted_reciprocal, Fv.add, Fv.div]

/-- Claim C5, witness for the amended theorem: a NaN distance against
concrete fitted LNND and LOF descriptions. -/
theorem claim_nan_preservation_amended_witness :
    LNND.queryRow ⟨1, [0, 0], [Fv.fin 0, Fv.fin 0]⟩ [0] [Fv.nan] = some Fv.nan ∧
    LOF.queryRow ⟨1, [0, 1], [Fv.fin 1, Fv.fin 1], [Fv.fin 1, Fv.fin 1]⟩ [0] [Fv.nan]
      = some (Fv.fin (1 / 2)) :=
  claim_nan_preservation_amended ⟨1, [0, 0], [Fv.fin 0, Fv.fin 0]⟩ [0] [Fv.nan] 0
    (Fv.fin 0) (by decide) (by decide) (by decide)
    ⟨1, [0, 1], [Fv.fin 1, Fv.fin 1], [Fv.fin 1, Fv.fin 1]⟩ [0] [Fv.nan]
    [Fv.fin 1] [Fv.fin 1] (by decide) (by decide) (by decide) (by decide)

theorem limit_and_sort_nonneg (v : List ℚ) (j : Nat) :
    limit_and_sort v (j : Int) = (sortAsc v).take j := by
  unfold limit_and_sort
  rw [if_pos (Int.ofNat_nonneg j)]
  simp

theorem limit_and_sort_neg (v : List ℚ) (j : Nat) (hj : 1 ≤ j) :
    limit_and_sort v (-(j : Int)) = (sortAsc v).drop ((sortAsc v).length - j) := by
  unfold limit_and_sort
  rw [if_neg (by omega)]
  simp

theorem applyW_max (op : OWAOperator) (v : List ℚ) (h1 : 1 ≤ op.k) :
    op.soft_max v = dot ((sortAsc v).drop ((sortAsc v).length - op.k))
      (if op.max_like then op.w else op.w.reverse) := by
  unfold OWAOperator.soft_max OWAOperator.applyW
  rw [limit_and_sort_neg v op.k h1]
  cases hml : op.max_like <;> simp [hml]

theorem applyW_min (op : OWAOperator) (v : List ℚ) :
    op.soft_min v = dot ((sortAsc v).take op.k).reverse op.w.reverse := by
  unfold OWAOperator.soft_min OWAOperator.applyW
  rw [limit_and_sort_nonneg v op.k]
  cases hml : op.max_like <;> simp [hml]

theorem headD_eq_head_getD (l : List ℚ) : l.headD 0 = l.head?.getD 0 := by
  cases l <;> rfl

/-- Claim C2, counterexample: soft-min/soft-max duality through the
reversed weight vector with flipped `max_like` fails both for an input
longer than the weight vector (first conjunct, simplex weights `[1]`,
`max_like = true`) and for an input of the weight vector's length when
`max_like = false` (second conjunct, simplex weights `[0, 1]`). -/
theorem claim_owa_duality_cex :
    OWAOperator.soft_min ⟨[1], true⟩ [0, 1] ≠
      OWAOperator.soft_max ⟨[1], false⟩ [0, 1] ∧
    OWAOperator.soft_min ⟨[0, 1], false⟩ [0, 1] ≠
      OWAOperator.soft_max ⟨[1, 0], true⟩ [0, 1] := by
  with_unfolding_all decide

/-- Claim C2, amended: for a simplex weight vector `w` and an input of
exactly the operator's length, the soft minimum of `(w, maxLike)` equals
the soft maximum of the operator built from the same weight vector with
`maxLike = true`; for `maxLike = true` this coincides with the claimed
dual (reversed weights, flipped flag). -/
theorem claim_owa_duality_amended (w : List ℚ) (m : Bool) (v : List ℚ)
    (_hw : ∀ x ∈ w, 0 ≤ x ∧ x ≤ 1) (hs : w.sum = 1) (hv : v.length = w.length) :
    OWAOperator.soft_min ⟨w, m⟩ v = OWAOperator.soft_max ⟨w, true⟩ v ∧
    (m = true →
      OWAOperator.soft_min ⟨w, m⟩ v = OWAOperator.soft_max ⟨w.reverse, !m⟩ v) := by
  have hw0 : w ≠ [] := by
    intro h
    rw [h] at hs
    simp at hs
  have hk1 : 1 ≤ w.length := List.length_pos.mpr hw0
  have hlen : (sortAsc v).length = w.length := by rw [length_sortAsc, hv]
  have hmin : OWAOperator.soft_min ⟨w, m⟩ v = dot (sortAsc v) w := by
    rw [applyW_min]
    show dot ((sortAsc v).take w.length).reverse w.reverse = dot (sortAsc v) w
    rw [← hlen, List.take_length]
    exact dot_reverse _ _ hlen
  have hmax : OWAOperator.soft_max ⟨w, true⟩ v = dot (sortAsc v) w := by
    rw [applyW_max _ _ (by exact hk1)]
    show dot ((sortAsc v).drop ((sortAsc v).length - w.length))
      (if true then w else w.reverse) = dot (sortAsc v) w
    rw [if_pos rfl, hlen, Nat.sub_self, List.drop_zero]
  have hmax2 : OWAOperator.soft_max ⟨w.reverse, false⟩ v = dot (sortAsc v) w := by
    have hkr : 1 ≤ (OWAOperator.mk w.reverse false).k := by
      show 1 ≤ w.reverse.length
      rw [List.length_reverse]
      exact hk1
    rw [applyW_max _ _ hkr]
    show dot ((sortAsc v).drop ((sortAsc v).length - w.reverse.length))
      (if false then w.reverse else w.reverse.reverse) = dot (sortAsc v) w
    rw [if_neg (by simp), List.reverse_reverse, List.length_reverse, hlen,
      Nat.sub_self, List.drop_zero]
  refine ⟨hmin.trans hmax.symm, ?_⟩
  intro hm
  subst hm
  rw [Bool.not_true]
  exact hmin.trans hmax2.symm

/-- Claim C2, witness for the amended theorem: weights `[1/2, 1/2]`,
`max_like = true`, input `[1, 2]`. -/
theorem claim_owa_duality_amended_witness :
    OWAOperator.soft_min ⟨[1 / 2, 1 / 2], true⟩ [1, 2] =
      OWAOperator.soft_max ⟨[1 / 2, 1 / 2], true⟩ [1, 2] ∧
    (true = true →
      OWAOperator.soft_min ⟨[1 / 2, 1 / 2], true⟩ [1, 2] =
        OWAOperator.soft_max ⟨[(1 : ℚ) / 2, 1 / 2].reverse, !true⟩ [1, 2]) :=
  claim_owa_duality_amended [1 / 2, 1 / 2] true [1, 2]
    (by with_unfolding_all decide) (by with_unfolding_all decide)
    (by with_unfolding_all decide)

/-- Claim C7: the `trimmed` family's operator of length k computes exactly
the k-th ranked values: its soft maximum is the k-th largest value of the
input and its soft minimum is the k-th smallest, for any input of length
at least k. -/
theorem claim_trimmed_kth_value (k : Nat) (v : List ℚ) (hk : 1 ≤ k)
    (hv : k ≤ v.length) :
    (trimmed k).soft_max v = kthLargest v k ∧
    (trimmed k).soft_min v = kthSmallest v k := by
  have hlen : (sortAsc v).length = v.length := length_sortAsc v
  have hopk : (trimmed k).k = k := trimmed_k k hk
  constructor
  · rw [applyW_max _ _ (by rw [hopk]; exact hk), hopk]
    show dot ((sortAsc v).drop ((sortAsc v).length - k))
      (if false then (trimmed k).w else (trimmed k).w.reverse) = kthLargest v k
    rw [if_neg (by simp)]
    show dot ((sortAsc v).drop ((sortAsc v).length - k)) (trimmed_w k).reverse
      = kthLargest v k
    rw [trimmed_w_reverse]
    have hdl : ((sortAsc v).drop ((sortAsc v).length - k)).length = k := by
      rw [List.length_drop]
      omega
    have hdne : (sortAsc v).drop ((sortAsc v).length - k) ≠ [] := by
      intro h
      rw [h] at hdl
      simp at hdl
      omega
    rw [dot_one_replicate_zero _ _ hdne, headD_eq_head_getD, List.head?_drop]
    unfold kthLargest
    rw [List.getD_eq_getElem?_getD, hlen]
  · rw [applyW_min, hopk]
    show dot ((sortAsc v).take k).reverse (trimmed_w k).reverse = kthSmallest v k
    rw [trimmed_w_reverse]
    have htl : ((sortAsc v).take k).length = k := by
      rw [List.length_take]
      omega
    have htne : ((sortAsc v).take k).reverse ≠ [] := by
      intro h
      have := congrArg List.length h
      rw [List.length_reverse, htl] at this
      simp at this
      omega
    rw [dot_one_replicate_zero _ _ htne, headD_eq_head_getD, List.head?_reverse,
      List.getLast?_eq_getElem?, htl, List.getElem?_take]
    rw [if_pos (by omega)]
    unfold kthSmallest
    rw [List.getD_eq_getElem?_getD]

/-- Claim C7, witness at k = 2 on the input [5, 1, 9, 4]: the soft maximum
is 5 (second largest) and the soft minimum is 4 (second smallest). -/
theorem claim_trimmed_kth_value_witness :
    (1 ≤ 2 ∧ 2 ≤ 4) ∧
    ((trimmed 2).soft_max [5, 1, 9, 4] = kthLargest [5, 1, 9, 4] 2 ∧
     (trimmed 2).soft_min [5, 1, 9, 4] = kthSmallest [5, 1, 9, 4] 2) :=
  ⟨⟨by norm_num, by norm_num⟩,
   claim_trimmed_kth_value 2 [5, 1, 9, 4] (by norm_num) (by norm_num)⟩
